import Mathlib

/-!
Shallow embedding of the tool-calling orchestration loop of
`src/integrations/channels/main.py` (`process_llm_with_tools`,
`filter_input_item`, and the per-call dispatch over `function_map`).

External collaborators are parameters of an `Env` record, following the
source's boundaries:
* `client.responses.create` is modelled as an oracle `endpoint : Nat → Response`
  giving the response to the n-th request of the run (the endpoint is opaque to
  the orchestrator; only the sequence of responses it produces matters);
* the Python `json.loads` / `json.dumps` library functions are the abstract
  `jparse` / `jdumps` fields;
* the global `function_map` table of tool callables is the `function_map`
  field: a possibly-failing callable per name (`Except` models a raised
  exception, carrying `str(e)`);
* the static global `tools` descriptor list is the opaque `tools` value,
  passed verbatim on every request.

Python values flowing through the loop are modelled by `JVal`; the dicts the
loop appends to `input_list` are association lists (`Dict`), preserving
insertion order as Python dicts do.  A response item (an SDK object probed
with `hasattr` / `getattr`) is a record of optional attributes; `getattr` on a
missing attribute raises, which the embedding propagates through `Except`.
-/

inductive JVal where
  | str (s : String)
  | num (n : Int)
  | bool (b : Bool)
  | null
  | arr (elems : List JVal)
  | obj (fields : List (String × JVal))

abbrev Dict := List (String × JVal)

/-- Association-list lookup, first binding wins (Python dict key access). -/
def dictLookup (k : String) : Dict → Option JVal
  | [] => none
  | (k₁, v) :: rest => if k₁ = k then some v else dictLookup k rest

/-- One output item of an endpoint response: a Python object with optional
attributes (`none` models `hasattr` returning `False`) and an optional
`model_dump` method returning a dict serialization. -/
structure RespItem where
  type? : Option String := none
  content? : Option JVal := none
  name? : Option String := none
  arguments? : Option JVal := none
  call_id? : Option String := none
  role? : Option String := none
  modelDump? : Option Dict := none

/-- An endpoint response: the `output` item list and the optional
`output_text` attribute. -/
structure Response where
  output : List RespItem
  output_text? : Option String

/-- The observable content of one `client.responses.create` call: the
arguments the loop passes at that round-trip. -/
structure Request where
  model : String
  tools : JVal
  input : List Dict
  instructions : Option String

/-- External collaborators of the orchestrator (see module docstring). -/
structure Env where
  endpoint : Nat → Response
  function_map : String → Option (JVal → Except String String)
  jparse : String → Except String JVal
  jdumps : JVal → String
  tools : JVal

/-- The dict returned by `process_llm_with_tools`, plus (as instrumentation,
not returned by the Python code) the trace of requests issued to the
Completion Endpoint during the run. -/
structure RunResult where
  response : Response
  output_text : Option String
  conversation_history : List Dict
  requests : List Request

/-- Models `getattr item attr`: `AttributeError` when the attribute is absent. -/
def getattrOr (v : Option α) (attr : String) : Except String α :=
  match v with
  | some x => Except.ok x
  | none => Except.error ("AttributeError: " ++ attr)

/-- The `valid_input_fields` set of `process_llm_with_tools` (main.py:745). -/
def valid_input_fields : List String :=
  ["role", "content", "type", "call_id", "output", "name", "arguments"]

/-- Embeds `filter_input_item` (main.py:703-711) on a dict argument: keep only the
entries whose key is a valid input field, preserving order. -/
def filter_input_item (item_dict : Dict) (valid : List String) : Dict :=
  item_dict.filter (fun kv => valid.contains kv.1)

/-- One optional entry of the manual fallback dict (main.py:772-787). -/
def optField (k : String) : Option JVal → Dict
  | some v => [(k, v)]
  | none => []

/-- The fallback dict built attribute by attribute when the item has no
`model_dump` (main.py:772-787), in the source's key order. -/
def fallbackDict (it : RespItem) : Dict :=
  optField "type" (it.type?.map JVal.str) ++
  optField "content" it.content? ++
  optField "name" (it.name?.map JVal.str) ++
  optField "arguments" it.arguments? ++
  optField "call_id" (it.call_id?.map JVal.str) ++
  optField "role" (it.role?.map JVal.str)

/-- Step b of the loop body for one item (main.py:761-787): skip reasoning
items; otherwise produce the dict to append (`none` when nothing is appended,
which the source's truthiness checks cause for empty dicts). -/
def normalizeItem (it : RespItem) : Option Dict :=
  if it.type? = some "reasoning" then none
  else
    match it.modelDump? with
    | some d =>
      let filtered := filter_input_item d valid_input_fields
      if filtered.isEmpty then none else some filtered
    | none =>
      let d := fallbackDict it
      if d.isEmpty then none else some d

/-- The `for item in response.output` append pass (main.py:761-787). -/
def appendOutputItems (input_list : List Dict) : List RespItem → List Dict
  | [] => input_list
  | it :: rest =>
    match normalizeItem it with
    | some d => appendOutputItems (input_list ++ [d]) rest
    | none => appendOutputItems input_list rest

/-- The `function_call_output` dict appended for one handled call
(main.py:804-821): type, call id, output string. -/
def fcOutputDict (cid output : String) : Dict :=
  [("type", JVal.str "function_call_output"),
   ("call_id", JVal.str cid),
   ("output", JVal.str output)]

/-- Models `json.loads(item.arguments) if isinstance(item.arguments, str) else
item.arguments` (main.py:798): parse string arguments, pass anything else
through pre-parsed. -/
def decodeArgs (env : Env) : JVal → Except String JVal
  | JVal.str s => env.jparse s
  | v => Except.ok v

/-- The `try` block of the known-function branch (main.py:796-808): read
`item.arguments`, decode it, invoke the tool with the result, and build the
success output dict with `item.call_id`.  Any failure (missing attribute,
parse error, tool exception) is the raised exception's message. -/
def tryBody (env : Env) (tool : JVal → Except String String) (it : RespItem) :
    Except String Dict := do
  let rawArgs ← getattrOr it.arguments? "arguments"
  let args ← decodeArgs env rawArgs
  let function_result ← tool args
  let cid ← getattrOr it.call_id? "call_id"
  Except.ok (fcOutputDict cid function_result)

/-- Handling of one `function_call` item (main.py:794-821): look the name up
in `function_map`; on success append the tool result, on exception append the
error payload built by `json.dumps` on an object with an error field, on an
unknown name append the unknown-function error payload.  A raised exception
that escapes the `except` handler (reading `item.name`, or `item.call_id` in
the handler or the unknown-name branch) propagates as `Except.error`. -/
def processFunctionCall (env : Env) (it : RespItem) : Except String Dict := do
  let function_name ← getattrOr it.name? "name"
  match env.function_map function_name with
  | some tool =>
    match tryBody env tool it with
    | Except.ok d => Except.ok d
    | Except.error e => do
      let cid ← getattrOr it.call_id? "call_id"
      Except.ok (fcOutputDict cid
        (env.jdumps (JVal.obj [("error", JVal.str e)])))
  | none => do
    let cid ← getattrOr it.call_id? "call_id"
    Except.ok (fcOutputDict cid
      (env.jdumps (JVal.obj [("error", JVal.str ("Unknown function: " ++ function_name))])))

/-- Step c-d of the loop body (main.py:789-821): scan the same output batch,
set `has_function_calls` on any `function_call` item and append its output
dict to the working transcript. -/
def processCalls (env : Env) (items : List RespItem) (input_list : List Dict)
    (has_function_calls : Bool) : Except String (List Dict × Bool) :=
  match items with
  | [] => Except.ok (input_list, has_function_calls)
  | it :: rest =>
    if it.type? = some "function_call" then
      match processFunctionCall env it with
      | Except.error e => Except.error e
      | Except.ok d => processCalls env rest (input_list ++ [d]) true
    else
      processCalls env rest input_list has_function_calls

/-- The error Python raises when the `return` statement reads the variable
`response` and the loop body never ran (main.py:827-831 with a non-positive
`max_iterations`). -/
def unboundResponseError : String :=
  "UnboundLocalError: cannot access local variable response"

/-- The `while iteration < max_iterations` loop (main.py:749-825).
`remaining` is the number of loop passes the guard still allows: the counter
starts at 0 and is incremented exactly once per pass, so the guard admits
exactly `max(max_iterations, 0)` passes unless the loop breaks.  `iteration`
carries the Python counter's current value, `reqs` the instrumentation trace
of issued requests, and `resp?` the current value of the `response` variable
(`none` before the first assignment). -/
def runLoop (env : Env) (model instructions : String) :
    Nat → Nat → List Dict → List Request → Option Response →
    Except String RunResult
  | 0, _, input_list, reqs, resp? =>
    match resp? with
    | some response =>
      Except.ok ⟨response, response.output_text?, input_list, reqs⟩
    | none => Except.error unboundResponseError
  | remaining + 1, iteration, input_list, reqs, _ =>
    let iteration := iteration + 1
    let req : Request :=
      ⟨model, env.tools, input_list,
       if iteration = 1 then some instructions else none⟩
    let response := env.endpoint reqs.length
    let input_list := appendOutputItems input_list response.output
    match processCalls env response.output input_list false with
    | Except.error e => Except.error e
    | Except.ok (input_list, has_function_calls) =>
      if has_function_calls then
        runLoop env model instructions remaining iteration input_list
          (reqs ++ [req]) (some response)
      else
        Except.ok ⟨response, response.output_text?, input_list, reqs ++ [req]⟩

/-- The user message dict appended at initialization (main.py:742). -/
def userItem (user_message : String) : Dict :=
  [("role", JVal.str "user"), ("content", JVal.str user_message)]

/-- The working transcript right after initialization (main.py:735-742):
a copy of the caller's history (empty when `none`) plus the user message. -/
def initialTranscript (user_message : String)
    (conversation_history : Option (List Dict)) : List Dict :=
  (match conversation_history with
   | none => []
   | some h => h) ++ [userItem user_message]

/-- Embeds `process_llm_with_tools` (main.py:714-831).  `max_iterations` is an `Int`
so that non-positive arguments are representable; the `stream` parameter of
the source is omitted because its value is never read. -/
def process_llm_with_tools (env : Env) (user_message : String)
    (model : String) (instructions : String)
    (conversation_history : Option (List Dict)) (max_iterations : Int) :
    Except String RunResult :=
  runLoop env model instructions max_iterations.toNat 0
    (initialTranscript user_message conversation_history) [] none

/-! ### Characterizations of the loop-body passes -/

/-- The outputs the dispatch pass appends for one batch, in batch order. -/
def batchOutputs (env : Env) : List RespItem → Except String (List Dict)
  | [] => Except.ok []
  | it :: rest =>
    if it.type? = some "function_call" then
      match processFunctionCall env it with
      | Except.error e => Except.error e
      | Except.ok d =>
        match batchOutputs env rest with
        | Except.error e => Except.error e
        | Except.ok ds => Except.ok (d :: ds)
    else batchOutputs env rest

/-- Whether a batch contains a `function_call` item. -/
def hasFC (items : List RespItem) : Bool :=
  items.any (fun it => it.type? = some "function_call")

/-! ### Transcript-item classification and endpoint well-formedness -/

/-- Whether a transcript dict carries the given `type` tag. -/
def dictIsType (t : String) (d : Dict) : Bool :=
  match dictLookup "type" d with
  | some (JVal.str s) => s == t
  | _ => false

/-- Call ids of the `function_call` dicts of a transcript segment, in order. -/
def fcIds (l : List Dict) : List (Option JVal) :=
  (l.filter (dictIsType "function_call")).map (dictLookup "call_id")

/-- Call ids of the `function_call_output` dicts of a transcript segment. -/
def fcoIds (l : List Dict) : List (Option JVal) :=
  (l.filter (dictIsType "function_call_output")).map (dictLookup "call_id")

/-- Well-formedness of an endpoint output item, as the Completion Endpoint
protocol guarantees it: the endpoint never emits `function_call_output`
items, and an item's `model_dump` dict reflects its `type` and `call_id`
attributes. -/
def wfItem (it : RespItem) : Prop :=
  it.type? ≠ some "function_call_output" ∧
  ∀ d, it.modelDump? = some d →
    dictLookup "type" d = it.type?.map JVal.str ∧
    dictLookup "call_id" d = it.call_id?.map JVal.str

/-- A transcript `l` extends `init` by a balanced segment: every `function_call` id in the
appended part is matched, in order, by a `function_call_output` id. -/
def balancedSuffix (init l : List Dict) : Prop :=
  ∃ s, l = init ++ s ∧ fcIds s = fcoIds s

/-- The expected per-request `instructions` arguments of a run issuing `n`
requests: the instructions string on the first, `None` afterwards. -/
def instrTrace (instructions : String) : Nat → List (Option String)
  | 0 => []
  | n + 1 => some instructions :: List.replicate n none

/-! ### Concrete sample data -/

/-- The `model_dump` dict of the sample `function_call` item. -/
def dA : Dict :=
  [("type", JVal.str "function_call"), ("call_id", JVal.str "c1"),
   ("name", JVal.str "t1"), ("arguments", JVal.obj [])]

/-- A well-formed `function_call` response item for a registered tool. -/
def fcItemA : RespItem :=
  { type? := some "function_call", name? := some "t1",
    arguments? := some (JVal.obj []), call_id? := some "c1",
    modelDump? := some dA }

/-- A response that always requests one tool call. -/
def respA : Response := ⟨[fcItemA], some "txt"⟩

/-- An environment whose endpoint perpetually requests tool calls and whose
registry knows the tool `t1`. -/
def envA : Env :=
  { endpoint := fun _ => respA,
    function_map := fun n => if n = "t1"
      then some (fun _ => Except.ok "ok-result") else none,
    jparse := fun _ => Except.ok JVal.null,
    jdumps := fun _ => "dumped",
    tools := JVal.null }

/-- The output dict the sample tool call produces. -/
def outA : Dict := fcOutputDict "c1" "ok-result"

/-- The initial transcript of the sample runs. -/
def initA : List Dict := initialTranscript "hi" none

/-- Result of running `envA` with an iteration budget of 1. -/
def resA1 : RunResult :=
  ⟨respA, some "txt", initA ++ [dA, outA],
   [⟨"m", JVal.null, initA, some "sys"⟩]⟩

/-- Result of running `envA` with an iteration budget of 2. -/
def resA2 : RunResult :=
  ⟨respA, some "txt", initA ++ [dA, outA, dA, outA],
   [⟨"m", JVal.null, initA, some "sys"⟩,
    ⟨"m", JVal.null, initA ++ [dA, outA], none⟩]⟩

/-- The tool `t2` of `envB`: raises on every invocation. -/
def toolB : JVal → Except String String := fun _ => Except.error "boom"

/-- A `function_call` item whose arguments are a malformed JSON string. -/
def fcItemB : RespItem :=
  { type? := some "function_call", name? := some "t2",
    arguments? := some (JVal.str "not json"), call_id? := some "c2",
    modelDump? := some [("type", JVal.str "function_call"),
      ("call_id", JVal.str "c2")] }

/-- A `function_call` item naming a tool absent from the registry. -/
def fcItemU : RespItem :=
  { type? := some "function_call", name? := some "nope",
    arguments? := some (JVal.obj []), call_id? := some "c9",
    modelDump? := some [("type", JVal.str "function_call"),
      ("call_id", JVal.str "c9")] }

/-- An item tagged as internal reasoning. -/
def reasoningItem : RespItem :=
  { type? := some "reasoning",
    modelDump? := some [("type", JVal.str "reasoning"),
      ("content", JVal.str "chain of thought")] }

/-- An environment whose registry tool raises and whose JSON decoding of the
malformed arguments string fails. -/
def envB : Env :=
  { endpoint := fun _ => ⟨[fcItemB], none⟩,
    function_map := fun n => if n = "t2" then some toolB else none,
    jparse := fun _ => Except.error "Expecting value",
    jdumps := fun _ => "err-payload",
    tools := JVal.null }

/-- A non-reasoning endpoint item none of whose `model_dump` fields is a
recognized input field: its normalization is empty, and the source's
truthiness guard then appends nothing. -/
def oddItemC : RespItem := { modelDump? := some [("id", JVal.str "x")] }

/-- A non-reasoning endpoint item mixing recognized and unrecognized
`model_dump` fields. -/
def msgItemC : RespItem :=
  { type? := some "message", role? := some "assistant",
    modelDump? := some [("id", JVal.str "m1"), ("type", JVal.str "message"),
      ("role", JVal.str "assistant"), ("content", JVal.str "hello")] }

/-- The plain-text response and environment of the short-circuit sample:
the first response contains no `function_call` items. -/
def respC : Response := ⟨[], some "plain"⟩

def envC : Env :=
  { endpoint := fun _ => respC,
    function_map := fun _ => none,
    jparse := fun _ => Except.ok JVal.null,
    jdumps := fun _ => "d",
    tools := JVal.null }

theorem appendOutputItems_eq (out : List RespItem) :
    ∀ input, appendOutputItems input out = input ++ out.filterMap normalizeItem := by
  induction out with
  | nil => intro input; simp [appendOutputItems]
  | cons it rest ih =>
    intro input
    cases h : normalizeItem it with
    | none => simp [appendOutputItems, h, ih]
    | some d => simp [appendOutputItems, h, ih]

theorem processCalls_eq (env : Env) (items : List RespItem) :
    ∀ input hfc, processCalls env items input hfc =
      match batchOutputs env items with
      | Except.error e => Except.error e
      | Except.ok ds => Except.ok (input ++ ds, hfc || hasFC items) := by
  induction items with
  | nil => intro input hfc; simp [processCalls, batchOutputs, hasFC]
  | cons it rest ih =>
    intro input hfc
    by_cases ht : it.type? = some "function_call"
    · cases hp : processFunctionCall env it with
      | error e => simp [processCalls, batchOutputs, ht, hp]
      | ok d =>
        rw [processCalls, batchOutputs]
        simp only [ht, if_pos, hp, ih]
        cases batchOutputs env rest with
        | error e => simp
        | ok ds => simp [hasFC, List.any_cons, ht]
    · rw [processCalls, batchOutputs]
      simp only [ht, if_false, ih]
      cases batchOutputs env rest with
      | error e => simp [ht]
      | ok ds => simp [hasFC, List.any_cons, ht]

theorem fcIds_append (a b : List Dict) : fcIds (a ++ b) = fcIds a ++ fcIds b := by
  simp [fcIds]

theorem fcoIds_append (a b : List Dict) : fcoIds (a ++ b) = fcoIds a ++ fcoIds b := by
  simp [fcoIds]

theorem dictLookup_filter (d : Dict) (valid : List String) (k : String)
    (hk : valid.contains k = true) :
    dictLookup k (filter_input_item d valid) = dictLookup k d := by
  replace hk : k ∈ valid := by simpa using hk
  induction d with
  | nil => rfl
  | cons kv rest ih =>
    obtain ⟨k₁, v⟩ := kv
    by_cases h : k₁ = k
    · subst h
      simp [filter_input_item, List.filter_cons, hk, dictLookup]
    · by_cases h₂ : k₁ ∈ valid
      · simpa [filter_input_item, List.filter_cons, h₂, dictLookup, h] using ih
      · simpa [filter_input_item, List.filter_cons, h₂, dictLookup, h] using ih

theorem dictLookup_ne_nil (l : Dict) (k : String) (v : JVal)
    (h : dictLookup k l = some v) : l.isEmpty = false := by
  cases l with
  | nil => simp [dictLookup] at h
  | cons kv rest => simp [List.isEmpty]

theorem dictLookup_fallback_type (it : RespItem) :
    dictLookup "type" (fallbackDict it) = it.type?.map JVal.str := by
  obtain ⟨t, c, n, a, ci, r, md⟩ := it
  cases t <;> cases c <;> cases n <;> cases a <;> cases ci <;> cases r <;>
    simp [fallbackDict, optField, dictLookup]

theorem dictLookup_fallback_call_id (it : RespItem) :
    dictLookup "call_id" (fallbackDict it) = it.call_id?.map JVal.str := by
  obtain ⟨t, c, n, a, ci, r, md⟩ := it
  cases t <;> cases c <;> cases n <;> cases a <;> cases ci <;> cases r <;>
    simp [fallbackDict, optField, dictLookup]

theorem normalizeItem_fc (it : RespItem) (cid : String)
    (hwf : wfItem it) (ht : it.type? = some "function_call")
    (hcid : it.call_id? = some cid) :
    ∃ nd, normalizeItem it = some nd ∧
      dictIsType "function_call" nd = true ∧
      dictIsType "function_call_output" nd = false ∧
      dictLookup "call_id" nd = some (JVal.str cid) := by
  have hnr : ¬ it.type? = some "reasoning" := by rw [ht]; simp
  cases hmd : it.modelDump? with
  | some d =>
    obtain ⟨hty, hci⟩ := hwf.2 d hmd
    rw [ht] at hty
    rw [hcid] at hci
    have hty' : dictLookup "type" (filter_input_item d valid_input_fields) =
        some (JVal.str "function_call") := by
      rw [dictLookup_filter d valid_input_fields "type" (by decide)]
      simpa using hty
    have hci' : dictLookup "call_id" (filter_input_item d valid_input_fields) =
        some (JVal.str cid) := by
      rw [dictLookup_filter d valid_input_fields "call_id" (by decide)]
      simpa using hci
    refine ⟨filter_input_item d valid_input_fields, ?_, ?_, ?_, hci'⟩
    · rw [normalizeItem, if_neg hnr, hmd]
      simp [dictLookup_ne_nil _ _ _ hty']
    · simp [dictIsType, hty']
    · simp [dictIsType, hty']
  | none =>
    have hty' : dictLookup "type" (fallbackDict it) =
        some (JVal.str "function_call") := by
      rw [dictLookup_fallback_type, ht]; rfl
    have hci' : dictLookup "call_id" (fallbackDict it) =
        some (JVal.str cid) := by
      rw [dictLookup_fallback_call_id, hcid]; rfl
    refine ⟨fallbackDict it, ?_, ?_, ?_, hci'⟩
    · rw [normalizeItem, if_neg hnr, hmd]
      simp [dictLookup_ne_nil _ _ _ hty']
    · simp [dictIsType, hty']
    · simp [dictIsType, hty']

theorem normalizeItem_not_fc (it : RespItem) (nd : Dict)
    (hwf : wfItem it) (ht : ¬ it.type? = some "function_call")
    (h : normalizeItem it = some nd) :
    dictIsType "function_call" nd = false ∧
    dictIsType "function_call_output" nd = false := by
  by_cases hnr : it.type? = some "reasoning"
  · rw [normalizeItem, if_pos hnr] at h; exact absurd h (by simp)
  · cases hmd : it.modelDump? with
    | some d =>
      obtain ⟨hty, _⟩ := hwf.2 d hmd
      rw [normalizeItem, if_neg hnr, hmd] at h
      have hnd : nd = filter_input_item d valid_input_fields := by
        by_cases he : (filter_input_item d valid_input_fields).isEmpty
        · simp [he] at h
        · simp [he] at h; exact h.symm
      subst hnd
      have hty' : dictLookup "type" (filter_input_item d valid_input_fields) =
          it.type?.map JVal.str := by
        rw [dictLookup_filter d valid_input_fields "type" (by decide)]
        exact hty
      constructor
      · cases htv : it.type? with
        | none => rw [htv] at hty'; simp [dictIsType, hty']
        | some t =>
          rw [htv] at hty'
          have htne : ¬ t = "function_call" := by
            intro hc; exact ht (by rw [htv, hc])
          simp [dictIsType, hty', htne]
      · cases htv : it.type? with
        | none => rw [htv] at hty'; simp [dictIsType, hty']
        | some t =>
          rw [htv] at hty'
          have htne : ¬ t = "function_call_output" := by
            intro hc; exact hwf.1 (by rw [htv, hc])
          simp [dictIsType, hty', htne]
    | none =>
      rw [normalizeItem, if_neg hnr, hmd] at h
      have hnd : nd = fallbackDict it := by
        by_cases he : (fallbackDict it).isEmpty
        · simp [he] at h
        · simp [he] at h; exact h.symm
      subst hnd
      have hty' : dictLookup "type" (fallbackDict it) = it.type?.map JVal.str :=
        dictLookup_fallback_type it
      constructor
      · cases htv : it.type? with
        | none => rw [htv] at hty'; simp [dictIsType, hty']
        | some t =>
          rw [htv] at hty'
          have htne : ¬ t = "function_call" := by
            intro hc; exact ht (by rw [htv, hc])
          simp [dictIsType, hty', htne]
      · cases htv : it.type? with
        | none => rw [htv] at hty'; simp [dictIsType, hty']
        | some t =>
          rw [htv] at hty'
          have htne : ¬ t = "function_call_output" := by
            intro hc; exact hwf.1 (by rw [htv, hc])
          simp [dictIsType, hty', htne]

theorem exceptBind_ok {ε α β : Type} (x : Except ε α) (f : α → Except ε β) (b : β) :
    (x >>= f) = Except.ok b ↔ ∃ a, x = Except.ok a ∧ f a = Except.ok b := by
  cases x with
  | error e =>
    constructor
    · intro h; cases h
    · rintro ⟨a, ha, -⟩; cases ha
  | ok a =>
    constructor
    · intro h; exact ⟨a, rfl, h⟩
    · rintro ⟨a₂, ha, hf⟩; cases ha; exact hf

theorem getattrOr_ok {α : Type} (v : Option α) (attr : String) (x : α)
    (h : getattrOr v attr = Except.ok x) : v = some x := by
  cases v with
  | none => simp [getattrOr] at h
  | some y => simpa [getattrOr] using h

theorem tryBody_ok (env : Env) (tool : JVal → Except String String)
    (it : RespItem) (d : Dict) (h : tryBody env tool it = Except.ok d) :
    ∃ cid s, it.call_id? = some cid ∧ d = fcOutputDict cid s := by
  unfold tryBody at h
  rw [exceptBind_ok] at h
  obtain ⟨rawArgs, -, h⟩ := h
  rw [exceptBind_ok] at h
  obtain ⟨args, -, h⟩ := h
  rw [exceptBind_ok] at h
  obtain ⟨res, -, h⟩ := h
  rw [exceptBind_ok] at h
  obtain ⟨cid, hcid, h⟩ := h
  simp only [Except.ok.injEq] at h
  exact ⟨cid, res, getattrOr_ok _ _ _ hcid, h.symm⟩

theorem processFunctionCall_ok (env : Env) (it : RespItem) (d : Dict)
    (h : processFunctionCall env it = Except.ok d) :
    ∃ cid s, it.call_id? = some cid ∧ d = fcOutputDict cid s := by
  unfold processFunctionCall at h
  rw [exceptBind_ok] at h
  obtain ⟨fname, -, h⟩ := h
  split at h
  · split at h
    · rename_i d' hd'
      rw [Except.ok.injEq] at h
      obtain ⟨cid, s, hcid, hshape⟩ := tryBody_ok _ _ _ _ hd'
      exact ⟨cid, s, hcid, h ▸ hshape⟩
    · rw [exceptBind_ok] at h
      obtain ⟨cid, hcid, h⟩ := h
      simp only [Except.ok.injEq] at h
      exact ⟨cid, _, getattrOr_ok _ _ _ hcid, h.symm⟩
  · rw [exceptBind_ok] at h
    obtain ⟨cid, hcid, h⟩ := h
    simp only [Except.ok.injEq] at h
    exact ⟨cid, _, getattrOr_ok _ _ _ hcid, h.symm⟩

theorem fcOutputDict_class (cid s : String) :
    dictIsType "function_call_output" (fcOutputDict cid s) = true ∧
    dictIsType "function_call" (fcOutputDict cid s) = false ∧
    dictLookup "call_id" (fcOutputDict cid s) = some (JVal.str cid) := by
  refine ⟨?_, ?_, ?_⟩ <;> simp [dictIsType, fcOutputDict, dictLookup]

theorem batch_fcIds (env : Env) (out : List RespItem) :
    ∀ ds, (∀ it ∈ out, wfItem it) → batchOutputs env out = Except.ok ds →
      fcIds (out.filterMap normalizeItem) = fcoIds ds ∧
      fcoIds (out.filterMap normalizeItem) = [] ∧
      fcIds ds = [] := by
  induction out with
  | nil =>
    intro ds _ h
    rw [batchOutputs, Except.ok.injEq] at h
    subst h
    simp [fcIds, fcoIds]
  | cons it rest ih =>
    intro ds hwf h
    rw [batchOutputs] at h
    by_cases ht : it.type? = some "function_call"
    · rw [if_pos ht] at h
      cases hp : processFunctionCall env it with
      | error e => rw [hp] at h; cases h
      | ok d =>
        rw [hp] at h
        cases hb : batchOutputs env rest with
        | error e => rw [hb] at h; cases h
        | ok ds' =>
          rw [hb, Except.ok.injEq] at h
          subst h
          obtain ⟨cid, s, hcid, hd⟩ := processFunctionCall_ok _ _ _ hp
          subst hd
          obtain ⟨nd, hnorm, hnd_fc, hnd_fco, hnd_cid⟩ :=
            normalizeItem_fc it cid (hwf it (by simp)) ht hcid
          obtain ⟨ih1, ih2, ih3⟩ := ih ds' (fun x hx => hwf x (by simp [hx])) hb
          obtain ⟨ho1, ho2, ho3⟩ := fcOutputDict_class cid s
          refine ⟨?_, ?_, ?_⟩
          · rw [List.filterMap_cons, hnorm]
            simp only [fcIds, fcoIds, List.filter_cons, hnd_fc, ho1,
              List.map_cons, if_pos] at ih1 ⊢
            simp [hnd_cid, ho3, ih1]
          · rw [List.filterMap_cons, hnorm]
            simp only [fcoIds, List.filter_cons, hnd_fco] at ih2 ⊢
            simp [ih2]
          · simp only [fcIds, List.filter_cons, ho2] at ih3 ⊢
            simp [ih3]
    · rw [if_neg ht] at h
      obtain ⟨ih1, ih2, ih3⟩ := ih ds (fun x hx => hwf x (by simp [hx])) h
      cases hnorm : normalizeItem it with
      | none => rw [List.filterMap_cons, hnorm]; exact ⟨ih1, ih2, ih3⟩
      | some nd =>
        obtain ⟨hnd_fc, hnd_fco⟩ :=
          normalizeItem_not_fc it nd (hwf it (by simp)) ht hnorm
        rw [List.filterMap_cons, hnorm]
        refine ⟨?_, ?_, ih3⟩
        · simp only [fcIds, List.filter_cons, hnd_fc] at ih1 ⊢
          simp [ih1]
        · simp only [fcoIds, List.filter_cons, hnd_fco] at ih2 ⊢
          simp [ih2]

/-- The transcript segment one loop pass appends — the normalized batch items
followed by the batch's `function_call_output` dicts — is balanced: its
`function_call` ids equal its `function_call_output` ids, in order. -/
theorem batch_balanced (env : Env) (out : List RespItem) (ds : List Dict)
    (hwf : ∀ it ∈ out, wfItem it) (h : batchOutputs env out = Except.ok ds) :
    fcIds (out.filterMap normalizeItem ++ ds) =
    fcoIds (out.filterMap normalizeItem ++ ds) := by
  obtain ⟨h1, h2, h3⟩ := batch_fcIds env out ds hwf h
  rw [fcIds_append, fcoIds_append, h1, h2, h3]
  simp

theorem runLoop_zero (env : Env) (model instructions : String)
    (iteration : Nat) (input : List Dict) (reqs : List Request)
    (resp? : Option Response) :
    runLoop env model instructions 0 iteration input reqs resp? =
      match resp? with
      | some response =>
        Except.ok ⟨response, response.output_text?, input, reqs⟩
      | none => Except.error unboundResponseError := rfl

theorem runLoop_succ (env : Env) (model instructions : String)
    (fuel iteration : Nat) (input : List Dict) (reqs : List Request)
    (resp? : Option Response) :
    runLoop env model instructions (fuel + 1) iteration input reqs resp? =
      match processCalls env (env.endpoint reqs.length).output
        (appendOutputItems input (env.endpoint reqs.length).output) false with
      | Except.error e => Except.error e
      | Except.ok (input₂, has_function_calls) =>
        if has_function_calls then
          runLoop env model instructions fuel (iteration + 1) input₂
            (reqs ++ [⟨model, env.tools, input,
              if iteration + 1 = 1 then some instructions else none⟩])
            (some (env.endpoint reqs.length))
        else
          Except.ok ⟨env.endpoint reqs.length,
            (env.endpoint reqs.length).output_text?, input₂,
            reqs ++ [⟨model, env.tools, input,
              if iteration + 1 = 1 then some instructions else none⟩]⟩ := rfl

theorem runLoop_pairing (env : Env) (model instructions : String)
    (init : List Dict)
    (hWF : ∀ n, ∀ it ∈ (env.endpoint n).output, wfItem it) :
    ∀ fuel iteration input reqs resp? res,
      balancedSuffix init input →
      (∀ req ∈ reqs, balancedSuffix init req.input) →
      runLoop env model instructions fuel iteration input reqs resp? =
        Except.ok res →
      balancedSuffix init res.conversation_history ∧
      (∀ req ∈ res.requests, balancedSuffix init req.input) := by
  intro fuel
  induction fuel with
  | zero =>
    intro iteration input reqs resp? res hin hreqs h
    rw [runLoop_zero] at h
    cases resp? with
    | none => cases h
    | some r =>
      rw [Except.ok.injEq] at h
      subst h
      exact ⟨hin, hreqs⟩
  | succ fuel ih =>
    intro iteration input reqs resp? res hin hreqs h
    rw [runLoop_succ, processCalls_eq] at h
    cases hb : batchOutputs env (env.endpoint reqs.length).output with
    | error e => rw [hb] at h; cases h
    | ok ds =>
      rw [hb] at h
      dsimp only at h
      have hseg := batch_balanced env (env.endpoint reqs.length).output ds
        (hWF reqs.length) hb
      obtain ⟨s, hsin, hsbal⟩ := hin
      have hin' : balancedSuffix init
          (appendOutputItems input (env.endpoint reqs.length).output ++ ds) := by
        refine ⟨s ++ ((env.endpoint reqs.length).output.filterMap normalizeItem
          ++ ds), ?_, ?_⟩
        · rw [appendOutputItems_eq, hsin]
          simp [List.append_assoc]
        · rw [fcIds_append, fcoIds_append, hsbal, hseg]
      have hreqs' : ∀ req ∈ reqs ++
          [⟨model, env.tools, input,
            if iteration + 1 = 1 then some instructions else none⟩],
          balancedSuffix init req.input := by
        intro req hreq
        rcases List.mem_append.mp hreq with hl | hr
        · exact hreqs req hl
        · rcases List.mem_singleton.mp hr with rfl
          exact ⟨s, hsin, hsbal⟩
      cases hfc : hasFC (env.endpoint reqs.length).output with
      | true =>
        rw [hfc] at h
        simp only [Bool.false_or, if_pos] at h
        exact ih _ _ _ _ _ hin' hreqs' h
      | false =>
        rw [hfc] at h
        simp only [Bool.false_or, Bool.false_eq_true, if_neg,
          not_false_eq_true, Except.ok.injEq] at h
        subst h
        exact ⟨hin', hreqs'⟩

theorem runLoop_length_le (env : Env) (model instructions : String) :
    ∀ fuel iteration input reqs resp? res,
      runLoop env model instructions fuel iteration input reqs resp? =
        Except.ok res →
      res.requests.length ≤ reqs.length + fuel := by
  intro fuel
  induction fuel with
  | zero =>
    intro iteration input reqs resp? res h
    rw [runLoop_zero] at h
    cases resp? with
    | none => cases h
    | some r =>
      rw [Except.ok.injEq] at h
      subst h
      simp
  | succ fuel ih =>
    intro iteration input reqs resp? res h
    rw [runLoop_succ] at h
    cases hpc : processCalls env (env.endpoint reqs.length).output
        (appendOutputItems input (env.endpoint reqs.length).output) false with
    | error e => rw [hpc] at h; cases h
    | ok p =>
      obtain ⟨input₂, hfc⟩ := p
      rw [hpc] at h
      cases hfc with
      | true =>
        simp only [if_pos] at h
        have := ih _ _ _ _ _ h
        simp only [List.length_append, List.length_cons, List.length_nil]
          at this
        omega
      | false =>
        simp only [Bool.false_eq_true, if_neg, not_false_eq_true,
          Except.ok.injEq] at h
        subst h
        simp only [List.length_append, List.length_cons, List.length_nil]
        omega

theorem runLoop_length_eq (env : Env) (model instructions : String)
    (hfc : ∀ n, hasFC (env.endpoint n).output = true) :
    ∀ fuel iteration input reqs resp? res,
      runLoop env model instructions fuel iteration input reqs resp? =
        Except.ok res →
      res.requests.length = reqs.length + fuel := by
  intro fuel
  induction fuel with
  | zero =>
    intro iteration input reqs resp? res h
    rw [runLoop_zero] at h
    cases resp? with
    | none => cases h
    | some r =>
      rw [Except.ok.injEq] at h
      subst h
      simp
  | succ fuel ih =>
    intro iteration input reqs resp? res h
    rw [runLoop_succ, processCalls_eq] at h
    cases hb : batchOutputs env (env.endpoint reqs.length).output with
    | error e => rw [hb] at h; cases h
    | ok ds =>
      rw [hb] at h
      dsimp only at h
      rw [hfc reqs.length] at h
      simp only [Bool.or_true, if_pos] at h
      have := ih _ _ _ _ _ h
      simp only [List.length_append, List.length_cons, List.length_nil] at this
      omega

theorem runLoop_last (env : Env) (model instructions : String) :
    ∀ fuel iteration input reqs resp? res,
      (match resp? with
       | none => reqs = []
       | some r => reqs ≠ [] ∧ r = env.endpoint (reqs.length - 1)) →
      runLoop env model instructions fuel iteration input reqs resp? =
        Except.ok res →
      res.requests ≠ [] ∧
      res.response = env.endpoint (res.requests.length - 1) ∧
      res.output_text = res.response.output_text? := by
  intro fuel
  induction fuel with
  | zero =>
    intro iteration input reqs resp? res hlast h
    rw [runLoop_zero] at h
    cases resp? with
    | none => cases h
    | some r =>
      rw [Except.ok.injEq] at h
      subst h
      exact ⟨hlast.1, hlast.2, rfl⟩
  | succ fuel ih =>
    intro iteration input reqs resp? res hlast h
    rw [runLoop_succ] at h
    cases hpc : processCalls env (env.endpoint reqs.length).output
        (appendOutputItems input (env.endpoint reqs.length).output) false with
    | error e => rw [hpc] at h; cases h
    | ok p =>
      obtain ⟨input₂, hfcb⟩ := p
      rw [hpc] at h
      cases hfcb with
      | true =>
        simp only [if_pos] at h
        refine ih _ _ _ _ _ ?_ h
        refine ⟨by simp, ?_⟩
        simp
      | false =>
        simp only [Bool.false_eq_true, if_neg, not_false_eq_true,
          Except.ok.injEq] at h
        subst h
        refine ⟨by simp, ?_, rfl⟩
        simp

theorem runLoop_prefix (env : Env) (model instructions : String) :
    ∀ fuel iteration input reqs resp? res,
      (∀ req ∈ reqs, ∃ t, input = req.input ++ t) →
      runLoop env model instructions fuel iteration input reqs resp? =
        Except.ok res →
      (∃ t, res.conversation_history = input ++ t) ∧
      (∀ req ∈ res.requests, ∃ t, res.conversation_history = req.input ++ t) := by
  intro fuel
  induction fuel with
  | zero =>
    intro iteration input reqs resp? res hreqs h
    rw [runLoop_zero] at h
    cases resp? with
    | none => cases h
    | some r =>
      rw [Except.ok.injEq] at h
      subst h
      refine ⟨⟨[], by simp⟩, ?_⟩
      intro req hreq
      obtain ⟨t, ht⟩ := hreqs req hreq
      exact ⟨t, ht⟩
  | succ fuel ih =>
    intro iteration input reqs resp? res hreqs h
    rw [runLoop_succ, processCalls_eq] at h
    cases hb : batchOutputs env (env.endpoint reqs.length).output with
    | error e => rw [hb] at h; cases h
    | ok ds =>
      rw [hb] at h
      dsimp only at h
      have hgrow : appendOutputItems input (env.endpoint reqs.length).output
          ++ ds = input ++
          ((env.endpoint reqs.length).output.filterMap normalizeItem ++ ds) := by
        rw [appendOutputItems_eq]
        simp [List.append_assoc]
      have hreqs' : ∀ req ∈ reqs ++
          [⟨model, env.tools, input,
            if iteration + 1 = 1 then some instructions else none⟩],
          ∃ t, appendOutputItems input (env.endpoint reqs.length).output
            ++ ds = req.input ++ t := by
        intro req hreq
        rcases List.mem_append.mp hreq with hl | hr
        · obtain ⟨t, ht⟩ := hreqs req hl
          refine ⟨t ++ ((env.endpoint reqs.length).output.filterMap
            normalizeItem ++ ds), ?_⟩
          rw [hgrow, ht]
          simp [List.append_assoc]
        · rcases List.mem_singleton.mp hr with rfl
          exact ⟨_, hgrow⟩
      cases hfcb : hasFC (env.endpoint reqs.length).output with
      | true =>
        rw [hfcb] at h
        simp only [Bool.false_or, if_pos] at h
        obtain ⟨⟨t, ht⟩, hall⟩ := ih _ _ _ _ _ hreqs' h
        refine ⟨⟨_, by rw [ht, hgrow, List.append_assoc]⟩, hall⟩
      | false =>
        rw [hfcb] at h
        simp only [Bool.false_or, Bool.false_eq_true, if_neg,
          not_false_eq_true, Except.ok.injEq] at h
        subst h
        exact ⟨⟨_, hgrow⟩, hreqs'⟩

theorem instrTrace_snoc (instructions : String) (n : Nat) :
    instrTrace instructions (n + 1) =
      instrTrace instructions n ++
        [if n = 0 then some instructions else none] := by
  cases n with
  | zero => rfl
  | succ m => simp [instrTrace, List.replicate_succ']

theorem runLoop_requests_shape (env : Env) (model instructions : String) :
    ∀ fuel iteration input reqs resp? res,
      iteration = reqs.length →
      reqs.map Request.instructions = instrTrace instructions reqs.length →
      (∀ req ∈ reqs, req.model = model ∧ req.tools = env.tools) →
      runLoop env model instructions fuel iteration input reqs resp? =
        Except.ok res →
      res.requests.map Request.instructions =
        instrTrace instructions res.requests.length ∧
      ∀ req ∈ res.requests, req.model = model ∧ req.tools = env.tools := by
  intro fuel
  induction fuel with
  | zero =>
    intro iteration input reqs resp? res hiter hmap hmt h
    rw [runLoop_zero] at h
    cases resp? with
    | none => cases h
    | some r =>
      rw [Except.ok.injEq] at h
      subst h
      exact ⟨hmap, hmt⟩
  | succ fuel ih =>
    intro iteration input reqs resp? res hiter hmap hmt h
    rw [runLoop_succ] at h
    cases hpc : processCalls env (env.endpoint reqs.length).output
        (appendOutputItems input (env.endpoint reqs.length).output) false with
    | error e => rw [hpc] at h; cases h
    | ok p =>
      obtain ⟨input₂, hfcb⟩ := p
      rw [hpc] at h
      have hif : (if iteration + 1 = 1 then some instructions else none) =
          (if reqs.length = 0 then some instructions else none) := by
        subst hiter
        by_cases hz : reqs.length = 0 <;> simp [hz]
      have hmap' : (reqs ++
          [(⟨model, env.tools, input,
            if iteration + 1 = 1 then some instructions else none⟩ :
            Request)]).map Request.instructions =
          instrTrace instructions (reqs ++
          [(⟨model, env.tools, input,
            if iteration + 1 = 1 then some instructions else none⟩ :
            Request)]).length := by
        rw [List.map_append, hmap, List.map_cons, List.map_nil]
        have hlen1 : (reqs ++
            [(⟨model, env.tools, input,
              if iteration + 1 = 1 then some instructions else none⟩ :
              Request)]).length = reqs.length + 1 := by simp
        rw [hlen1, instrTrace_snoc, hif]
      have hmt' : ∀ req ∈ reqs ++
          [(⟨model, env.tools, input,
            if iteration + 1 = 1 then some instructions else none⟩ :
            Request)],
          req.model = model ∧ req.tools = env.tools := by
        intro req hreq
        rcases List.mem_append.mp hreq with hl | hr
        · exact hmt req hl
        · rcases List.mem_singleton.mp hr with rfl
          exact ⟨rfl, rfl⟩
      cases hfcb with
      | true =>
        simp only [if_pos] at h
        exact ih _ _ _ _ _ (by simp [hiter]) hmap' hmt' h
      | false =>
        simp only [Bool.false_eq_true, if_neg, not_false_eq_true,
          Except.ok.injEq] at h
        subst h
        exact ⟨hmap', hmt'⟩

theorem ok_bind {ε α β : Type} (a : α) (f : α → Except ε β) :
    (Except.ok a >>= f : Except ε β) = f a := rfl

theorem error_bind {ε α β : Type} (e : ε) (f : α → Except ε β) :
    (Except.error e >>= f : Except ε β) = Except.error e := rfl

theorem appendOutputItems_cons (input : List Dict) (it : RespItem)
    (rest : List RespItem) :
    appendOutputItems input (it :: rest) =
      match normalizeItem it with
      | some d => appendOutputItems (input ++ [d]) rest
      | none => appendOutputItems input rest := rfl

theorem processCalls_cons (env : Env) (it : RespItem) (rest : List RespItem)
    (input : List Dict) (hfcb : Bool) :
    processCalls env (it :: rest) input hfcb =
      if it.type? = some "function_call" then
        match processFunctionCall env it with
        | Except.error e => Except.error e
        | Except.ok d => processCalls env rest (input ++ [d]) true
      else processCalls env rest input hfcb := rfl

theorem batchOutputs_no_fc (env : Env) (out : List RespItem)
    (h : hasFC out = false) : batchOutputs env out = Except.ok [] := by
  induction out with
  | nil => rfl
  | cons it rest ih =>
    rw [hasFC, List.any_cons, Bool.or_eq_false_iff] at h
    rw [batchOutputs, if_neg (by simpa using h.1)]
    exact ih (by rw [hasFC]; exact h.2)

theorem tryBody_parse_error (env : Env) (tool : JVal → Except String String)
    (it : RespItem) (s e : String)
    (hargs : it.arguments? = some (JVal.str s))
    (hp : env.jparse s = Except.error e) :
    tryBody env tool it = Except.error e := by
  unfold tryBody
  rw [hargs,
    show getattrOr (some (JVal.str s)) "arguments" = Except.ok (JVal.str s)
      from rfl,
    ok_bind,
    show decodeArgs env (JVal.str s) = env.jparse s from rfl,
    hp, error_bind]

theorem tryBody_tool_error (env : Env) (tool : JVal → Except String String)
    (it : RespItem) (v a : JVal) (e : String)
    (hargs : it.arguments? = some v)
    (hdec : decodeArgs env v = Except.ok a)
    (htool : tool a = Except.error e) :
    tryBody env tool it = Except.error e := by
  unfold tryBody
  rw [hargs, show getattrOr (some v) "arguments" = Except.ok v from rfl,
    ok_bind, hdec, ok_bind, htool, error_bind]

theorem processFunctionCall_handler (env : Env) (it : RespItem)
    (n cid e : String) (tool : JVal → Except String String)
    (hname : it.name? = some n)
    (hmap : env.function_map n = some tool)
    (hcid : it.call_id? = some cid)
    (htb : tryBody env tool it = Except.error e) :
    processFunctionCall env it = Except.ok (fcOutputDict cid
      (env.jdumps (JVal.obj [("error", JVal.str e)]))) := by
  unfold processFunctionCall
  rw [hname]
  simp only [getattrOr, ok_bind, hmap, htb, hcid]

theorem processFunctionCall_unknown (env : Env) (it : RespItem)
    (n cid : String)
    (hname : it.name? = some n)
    (hmap : env.function_map n = none)
    (hcid : it.call_id? = some cid) :
    processFunctionCall env it = Except.ok (fcOutputDict cid
      (env.jdumps (JVal.obj
        [("error", JVal.str ("Unknown function: " ++ n))]))) := by
  unfold processFunctionCall
  rw [hname]
  simp only [getattrOr, ok_bind, hmap, hcid]

theorem envA_wf : ∀ n, ∀ it ∈ (envA.endpoint n).output, wfItem it := by
  intro n it hit
  simp only [envA, respA, List.mem_singleton] at hit
  subst hit
  constructor
  · simp [fcItemA]
  · intro d hd
    simp only [fcItemA, Option.some.injEq] at hd
    subst hd
    exact ⟨rfl, rfl⟩

/-! ### Claim theorems -/

/-- C1: Pairing invariant.  For a run of `process_llm_with_tools` over
well-formed endpoint responses, the segment the run appends after the initial
transcript has its `function_call` call ids equal, in order, to its
`function_call_output` call ids — equal counts, each output answering a
distinct preceding call — and the input snapshot of every request issued to
the Completion Endpoint already satisfies this, i.e. every `function_call` of
a batch is answered before the next request is made.  This holds whatever the
tools do (errors included), since the output dict is appended on every path
of the dispatch. -/
theorem claim_C1_pairing_invariant (env : Env)
    (user_message model instructions : String)
    (conversation_history : Option (List Dict)) (max_iterations : Int)
    (res : RunResult)
    (hWF : ∀ n, ∀ it ∈ (env.endpoint n).output, wfItem it)
    (h : process_llm_with_tools env user_message model instructions
      conversation_history max_iterations = Except.ok res) :
    balancedSuffix (initialTranscript user_message conversation_history)
      res.conversation_history ∧
    ∀ req ∈ res.requests,
      balancedSuffix (initialTranscript user_message conversation_history)
        req.input :=
  runLoop_pairing env model instructions
    (initialTranscript user_message conversation_history) hWF
    max_iterations.toNat 0
    (initialTranscript user_message conversation_history) [] none res
    ⟨[], by simp, rfl⟩ (by simp) h

theorem claim_C1_witness :
    (∀ n, ∀ it ∈ (envA.endpoint n).output, wfItem it) ∧
    process_llm_with_tools envA "hi" "m" "sys" none 1 = Except.ok resA1 ∧
    (balancedSuffix (initialTranscript "hi" none) resA1.conversation_history ∧
     ∀ req ∈ resA1.requests,
       balancedSuffix (initialTranscript "hi" none) req.input) :=
  ⟨envA_wf, rfl,
   claim_C1_pairing_invariant envA "hi" "m" "sys" none 1 resA1 envA_wf rfl⟩

/-- C2: Bounded termination.  A completed run never makes more than
`max_iterations` round-trips; and when every endpoint response contains at
least one `function_call` item, it makes exactly `max_iterations` round-trips
and returns the last response and its aggregated text. -/
theorem claim_C2_bounded_termination (env : Env)
    (user_message model instructions : String)
    (conversation_history : Option (List Dict)) (max_iterations : Int)
    (res : RunResult)
    (hpos : 0 < max_iterations)
    (h : process_llm_with_tools env user_message model instructions
      conversation_history max_iterations = Except.ok res) :
    res.requests.length ≤ max_iterations.toNat ∧
    ((∀ n, hasFC (env.endpoint n).output = true) →
      res.requests.length = max_iterations.toNat ∧
      res.response = env.endpoint (max_iterations.toNat - 1) ∧
      res.output_text = res.response.output_text?) := by
  constructor
  · have := runLoop_length_le env model instructions max_iterations.toNat 0
      (initialTranscript user_message conversation_history) [] none res h
    simpa using this
  · intro hfc
    have hlen := runLoop_length_eq env model instructions hfc
      max_iterations.toNat 0
      (initialTranscript user_message conversation_history) [] none res h
    simp only [List.length_nil, Nat.zero_add] at hlen
    have hlast := runLoop_last env model instructions max_iterations.toNat 0
      (initialTranscript user_message conversation_history) [] none res
      rfl h
    exact ⟨hlen, by rw [hlast.2.1, hlen], hlast.2.2⟩

theorem claim_C2_witness :
    (0 : Int) < 2 ∧
    process_llm_with_tools envA "hi" "m" "sys" none 2 = Except.ok resA2 ∧
    (∀ n, hasFC (envA.endpoint n).output = true) ∧
    (resA2.requests.length ≤ (2 : Int).toNat ∧
     ((∀ n, hasFC (envA.endpoint n).output = true) →
       resA2.requests.length = (2 : Int).toNat ∧
       resA2.response = envA.endpoint ((2 : Int).toNat - 1) ∧
       resA2.output_text = resA2.response.output_text?)) :=
  ⟨by decide, rfl, fun n => rfl,
   claim_C2_bounded_termination envA "hi" "m" "sys" none 2 resA2
     (by decide) rfl⟩

/-- C10: Non-positive iteration budget.  With `max_iterations ≤ 0` the loop
body never runs: the run fails with the unbound-variable error the `return`
statement raises when reading the never-assigned `response`, and the outcome
does not depend on the environment at all — in particular no request is made
to the Completion Endpoint. -/
theorem claim_C10_nonpositive_budget (env env₂ : Env)
    (user_message model instructions : String)
    (conversation_history : Option (List Dict)) (max_iterations : Int)
    (h : max_iterations ≤ 0) :
    process_llm_with_tools env user_message model instructions
        conversation_history max_iterations =
      Except.error unboundResponseError ∧
    process_llm_with_tools env user_message model instructions
        conversation_history max_iterations =
      process_llm_with_tools env₂ user_message model instructions
        conversation_history max_iterations := by
  have ht : max_iterations.toNat = 0 := by omega
  have h1 : ∀ e : Env, process_llm_with_tools e user_message model
      instructions conversation_history max_iterations =
      Except.error unboundResponseError := by
    intro e
    unfold process_llm_with_tools
    rw [ht, runLoop_zero]
  exact ⟨h1 env, (h1 env).trans (h1 env₂).symm⟩

theorem claim_C10_witness :
    (0 : Int) ≤ 0 ∧
    (process_llm_with_tools envA "hi" "m" "sys" none 0 =
       Except.error unboundResponseError ∧
     process_llm_with_tools envA "hi" "m" "sys" none 0 =
       process_llm_with_tools
         { endpoint := fun _ => ⟨[], none⟩,
           function_map := fun _ => none,
           jparse := fun _ => Except.ok JVal.null,
           jdumps := fun _ => "d", tools := JVal.null }
         "hi" "m" "sys" none 0) :=
  ⟨by decide,
   claim_C10_nonpositive_budget envA _ "hi" "m" "sys" none 0 (by decide)⟩

/-- C3: Error containment.  When a `function_call` names a registered tool
and either the JSON decoding of its arguments string fails or the tool
invocation raises, the dispatch does not propagate the exception: it returns
normally with a `function_call_output` dict carrying the same call id whose
output is the `json.dumps` encoding of an object with an error field holding
the exception message, and the batch scan proceeds with the next item. -/
theorem claim_C3_error_containment (env : Env) (it : RespItem)
    (rest : List RespItem) (input : List Dict) (hfcb : Bool)
    (n cid e : String) (tool : JVal → Except String String)
    (htype : it.type? = some "function_call")
    (hname : it.name? = some n)
    (hmap : env.function_map n = some tool)
    (hcid : it.call_id? = some cid)
    (hfail : (∃ s, it.arguments? = some (JVal.str s) ∧
                env.jparse s = Except.error e) ∨
             (∃ v a, it.arguments? = some v ∧
                decodeArgs env v = Except.ok a ∧ tool a = Except.error e)) :
    processFunctionCall env it = Except.ok (fcOutputDict cid
      (env.jdumps (JVal.obj [("error", JVal.str e)]))) ∧
    processCalls env (it :: rest) input hfcb =
      processCalls env rest
        (input ++ [fcOutputDict cid
          (env.jdumps (JVal.obj [("error", JVal.str e)]))]) true := by
  have htb : tryBody env tool it = Except.error e := by
    rcases hfail with ⟨s, hargs, hp⟩ | ⟨v, a, hargs, hdec, htool⟩
    · exact tryBody_parse_error env tool it s e hargs hp
    · exact tryBody_tool_error env tool it v a e hargs hdec htool
  have hpfc := processFunctionCall_handler env it n cid e tool hname hmap
    hcid htb
  refine ⟨hpfc, ?_⟩
  rw [processCalls_cons, if_pos htype, hpfc]

theorem claim_C3_witness :
    fcItemB.type? = some "function_call" ∧
    fcItemB.name? = some "t2" ∧
    envB.function_map "t2" = some toolB ∧
    fcItemB.call_id? = some "c2" ∧
    (∃ s, fcItemB.arguments? = some (JVal.str s) ∧
      envB.jparse s = Except.error "Expecting value") ∧
    (processFunctionCall envB fcItemB = Except.ok (fcOutputDict "c2"
       (envB.jdumps (JVal.obj [("error", JVal.str "Expecting value")]))) ∧
     processCalls envB [fcItemB] [] false =
       processCalls envB []
         ([] ++ [fcOutputDict "c2"
           (envB.jdumps (JVal.obj
             [("error", JVal.str "Expecting value")]))]) true) :=
  ⟨rfl, rfl, rfl, rfl, ⟨"not json", rfl, rfl⟩,
   claim_C3_error_containment envB fcItemB [] [] false "t2" "c2"
     "Expecting value" toolB rfl rfl rfl rfl
     (Or.inl ⟨"not json", rfl, rfl⟩)⟩

/-- C4: Unknown tool handling.  A `function_call` whose name is absent from
the registry yields a `function_call_output` dict with the same call id whose
output is the `json.dumps` encoding of an object whose error field reads
"Unknown function: " followed by the name, and the batch scan proceeds with
the next item. -/
theorem claim_C4_unknown_tool (env : Env) (it : RespItem)
    (rest : List RespItem) (input : List Dict) (hfcb : Bool)
    (n cid : String)
    (htype : it.type? = some "function_call")
    (hname : it.name? = some n)
    (hmap : env.function_map n = none)
    (hcid : it.call_id? = some cid) :
    processFunctionCall env it = Except.ok (fcOutputDict cid
      (env.jdumps (JVal.obj
        [("error", JVal.str ("Unknown function: " ++ n))]))) ∧
    processCalls env (it :: rest) input hfcb =
      processCalls env rest (input ++ [fcOutputDict cid
        (env.jdumps (JVal.obj
          [("error", JVal.str ("Unknown function: " ++ n))]))]) true := by
  have hpfc := processFunctionCall_unknown env it n cid hname hmap hcid
  exact ⟨hpfc, by rw [processCalls_cons, if_pos htype, hpfc]⟩

theorem claim_C4_witness :
    fcItemU.type? = some "function_call" ∧
    fcItemU.name? = some "nope" ∧
    envB.function_map "nope" = none ∧
    fcItemU.call_id? = some "c9" ∧
    (processFunctionCall envB fcItemU = Except.ok (fcOutputDict "c9"
       (envB.jdumps (JVal.obj
         [("error", JVal.str ("Unknown function: " ++ "nope"))]))) ∧
     processCalls envB [fcItemU] [] false =
       processCalls envB []
         ([] ++ [fcOutputDict "c9"
           (envB.jdumps (JVal.obj
             [("error", JVal.str ("Unknown function: " ++ "nope"))]))])
         true) :=
  ⟨rfl, rfl, rfl, rfl,
   claim_C4_unknown_tool envB fcItemU [] [] false "nope" "c9"
     rfl rfl rfl rfl⟩

/-- C5: Reasoning-item exclusion.  An output item tagged `reasoning` is
dropped by the normalization pass (`normalizeItem` yields nothing, so the
append pass leaves the transcript unchanged) and is ignored by the dispatch
pass.  These two passes are the only places the loop appends response items,
so a reasoning item never reaches the working transcript, hence neither the
input of any subsequent endpoint call nor the transcript returned to the
caller. -/
theorem claim_C5_reasoning_exclusion (env : Env) (it : RespItem)
    (rest : List RespItem) (input : List Dict) (hfcb : Bool)
    (ht : it.type? = some "reasoning") :
    normalizeItem it = none ∧
    appendOutputItems input (it :: rest) = appendOutputItems input rest ∧
    processCalls env (it :: rest) input hfcb =
      processCalls env rest input hfcb := by
  have hn : normalizeItem it = none := by rw [normalizeItem, if_pos ht]
  refine ⟨hn, ?_, ?_⟩
  · rw [appendOutputItems_cons, hn]
  · rw [processCalls_cons, if_neg (by rw [ht]; simp)]

theorem claim_C5_witness :
    reasoningItem.type? = some "reasoning" ∧
    (normalizeItem reasoningItem = none ∧
     appendOutputItems [] [reasoningItem] = appendOutputItems [] [] ∧
     processCalls envA [reasoningItem] [] false =
       processCalls envA [] [] false) :=
  ⟨rfl, claim_C5_reasoning_exclusion envA reasoningItem [] [] false rfl⟩

/-- C6 counterexample: `oddItemC` is not a reasoning item, its normalization
keeps no field, and — against the claim's "each such normalized item is
appended" — the append pass appends nothing for it (the claim would require
the empty normalized dict to be appended). -/
theorem claim_C6_counterexample :
    ¬ oddItemC.type? = some "reasoning" ∧
    filter_input_item [("id", JVal.str "x")] valid_input_fields = [] ∧
    appendOutputItems [] [oddItemC] = [] :=
  ⟨by simp [oddItemC], rfl, rfl⟩

/-- C6 (amended): every non-reasoning output item with a `model_dump` dict is
normalized by keeping exactly its entries whose key is a recognized input
field (role, content, type, call_id, output, name, arguments) — every
unrecognized field is absent from the normalized dict — and the normalized
item is appended to the working transcript when it is nonempty; an item none
of whose fields is recognized contributes nothing. -/
theorem claim_C6_normalization (it : RespItem) (d : Dict) (input : List Dict)
    (rest : List RespItem)
    (ht : ¬ it.type? = some "reasoning") (hmd : it.modelDump? = some d) :
    (∀ kv ∈ filter_input_item d valid_input_fields,
       kv.1 ∈ valid_input_fields ∧ kv ∈ d) ∧
    (∀ kv ∈ d, kv.1 ∈ valid_input_fields →
       kv ∈ filter_input_item d valid_input_fields) ∧
    appendOutputItems input (it :: rest) =
      appendOutputItems
        (input ++ (if (filter_input_item d valid_input_fields).isEmpty then []
          else [filter_input_item d valid_input_fields])) rest := by
  refine ⟨?_, ?_, ?_⟩
  · intro kv hkv
    have := List.mem_filter.mp hkv
    exact ⟨by simpa using this.2, this.1⟩
  · intro kv hkv hval
    exact List.mem_filter.mpr ⟨hkv, by simpa using hval⟩
  · rw [appendOutputItems_cons]
    have hnorm : normalizeItem it =
        (if (filter_input_item d valid_input_fields).isEmpty then none
         else some (filter_input_item d valid_input_fields)) := by
      rw [normalizeItem, if_neg ht, hmd]
    rw [hnorm]
    by_cases he : (filter_input_item d valid_input_fields).isEmpty
    · simp [he]
    · simp [he]

theorem claim_C6_witness :
    ¬ msgItemC.type? = some "reasoning" ∧
    msgItemC.modelDump? = some [("id", JVal.str "m1"),
      ("type", JVal.str "message"), ("role", JVal.str "assistant"),
      ("content", JVal.str "hello")] ∧
    ((∀ kv ∈ filter_input_item [("id", JVal.str "m1"),
        ("type", JVal.str "message"), ("role", JVal.str "assistant"),
        ("content", JVal.str "hello")] valid_input_fields,
       kv.1 ∈ valid_input_fields ∧ kv ∈ [("id", JVal.str "m1"),
        ("type", JVal.str "message"), ("role", JVal.str "assistant"),
        ("content", JVal.str "hello")]) ∧
     (∀ kv ∈ [("id", JVal.str "m1"), ("type", JVal.str "message"),
        ("role", JVal.str "assistant"), ("content", JVal.str "hello")],
       kv.1 ∈ valid_input_fields →
       kv ∈ filter_input_item [("id", JVal.str "m1"),
        ("type", JVal.str "message"), ("role", JVal.str "assistant"),
        ("content", JVal.str "hello")] valid_input_fields) ∧
     appendOutputItems [] [msgItemC] =
       appendOutputItems
         ([] ++ (if (filter_input_item [("id", JVal.str "m1"),
            ("type", JVal.str "message"), ("role", JVal.str "assistant"),
            ("content", JVal.str "hello")] valid_input_fields).isEmpty then []
           else [filter_input_item [("id", JVal.str "m1"),
            ("type", JVal.str "message"), ("role", JVal.str "assistant"),
            ("content", JVal.str "hello")] valid_input_fields])) []) :=
  ⟨by simp [msgItemC], rfl,
   claim_C6_normalization msgItemC _ [] [] (by simp [msgItemC]) rfl⟩

/-- C7: No-tool-call short-circuit and return value.  If the first endpoint
response contains zero `function_call` items, the run is a single round-trip
returning that response, its aggregated text, the initial transcript plus the
normalized batch, and exactly one recorded request; and in general every
completed run returns the last endpoint response together with its
`output_text` attribute. -/
theorem claim_C7_short_circuit (env : Env)
    (user_message model instructions : String)
    (conversation_history : Option (List Dict)) (max_iterations : Int)
    (hpos : 0 < max_iterations)
    (hnofc : hasFC (env.endpoint 0).output = false) :
    process_llm_with_tools env user_message model instructions
        conversation_history max_iterations =
      Except.ok ⟨env.endpoint 0, (env.endpoint 0).output_text?,
        initialTranscript user_message conversation_history ++
          (env.endpoint 0).output.filterMap normalizeItem,
        [⟨model, env.tools,
          initialTranscript user_message conversation_history,
          some instructions⟩]⟩ ∧
    (∀ (env₂ : Env) (um₂ m₂ i₂ : String) (ch₂ : Option (List Dict))
        (mi₂ : Int) (res₂ : RunResult),
      process_llm_with_tools env₂ um₂ m₂ i₂ ch₂ mi₂ = Except.ok res₂ →
      res₂.output_text = res₂.response.output_text? ∧
      res₂.response = env₂.endpoint (res₂.requests.length - 1)) := by
  constructor
  · obtain ⟨k, hk⟩ : ∃ k, max_iterations.toNat = k + 1 :=
      ⟨max_iterations.toNat - 1, by omega⟩
    unfold process_llm_with_tools
    rw [hk, runLoop_succ]
    simp only [List.length_nil]
    rw [processCalls_eq, batchOutputs_no_fc env _ hnofc]
    dsimp only
    rw [hnofc]
    simp [appendOutputItems_eq]
  · intro env₂ um₂ m₂ i₂ ch₂ mi₂ res₂ h₂
    have hl := runLoop_last env₂ m₂ i₂ mi₂.toNat 0
      (initialTranscript um₂ ch₂) [] none res₂ rfl h₂
    exact ⟨hl.2.2, hl.2.1⟩

theorem claim_C7_witness :
    (0 : Int) < 5 ∧
    hasFC (envC.endpoint 0).output = false ∧
    (process_llm_with_tools envC "q" "m" "sys" none 5 =
       Except.ok ⟨envC.endpoint 0, (envC.endpoint 0).output_text?,
         initialTranscript "q" none ++
           (envC.endpoint 0).output.filterMap normalizeItem,
         [⟨"m", envC.tools, initialTranscript "q" none, some "sys"⟩]⟩ ∧
     (∀ (env₂ : Env) (um₂ m₂ i₂ : String) (ch₂ : Option (List Dict))
         (mi₂ : Int) (res₂ : RunResult),
       process_llm_with_tools env₂ um₂ m₂ i₂ ch₂ mi₂ = Except.ok res₂ →
       res₂.output_text = res₂.response.output_text? ∧
       res₂.response = env₂.endpoint (res₂.requests.length - 1))) :=
  ⟨by decide, rfl,
   claim_C7_short_circuit envC "q" "m" "sys" none 5 (by decide) rfl⟩

/-- C8: Instructions only on the first round-trip.  Over any completed run,
the per-request `instructions` arguments are the instructions string on the
first request and `None` on every later one (`instrTrace`), while every
request carries the caller's model name and the environment's tool descriptor
list verbatim. -/
theorem claim_C8_instructions_first (env : Env)
    (user_message model instructions : String)
    (conversation_history : Option (List Dict)) (max_iterations : Int)
    (res : RunResult)
    (h : process_llm_with_tools env user_message model instructions
      conversation_history max_iterations = Except.ok res) :
    res.requests.map Request.instructions =
      instrTrace instructions res.requests.length ∧
    ∀ req ∈ res.requests, req.model = model ∧ req.tools = env.tools :=
  runLoop_requests_shape env model instructions max_iterations.toNat 0
    (initialTranscript user_message conversation_history) [] none res
    rfl rfl (by simp) h

theorem claim_C8_witness :
    process_llm_with_tools envA "hi" "m" "sys" none 2 = Except.ok resA2 ∧
    (resA2.requests.map Request.instructions =
       instrTrace "sys" resA2.requests.length ∧
     ∀ req ∈ resA2.requests, req.model = "m" ∧ req.tools = envA.tools) :=
  ⟨rfl, claim_C8_instructions_first envA "hi" "m" "sys" none 2 resA2 rfl⟩

/-- C9: Prior transcript unchanged and append-only growth.  The working
transcript starts as the caller's history (a copy — the embedding is pure, so
the caller's list is never mutated) plus one user message dict; every
request's input snapshot is a prefix of the final transcript, so once a dict
is appended it is never removed or modified by later iterations. -/
theorem claim_C9_transcript_append_only (env : Env)
    (user_message model instructions : String)
    (conversation_history : Option (List Dict)) (max_iterations : Int)
    (res : RunResult)
    (h : process_llm_with_tools env user_message model instructions
      conversation_history max_iterations = Except.ok res) :
    initialTranscript user_message conversation_history =
      conversation_history.getD [] ++ [userItem user_message] ∧
    (∃ t, res.conversation_history =
      initialTranscript user_message conversation_history ++ t) ∧
    ∀ req ∈ res.requests,
      ∃ t, res.conversation_history = req.input ++ t := by
  have hp := runLoop_prefix env model instructions max_iterations.toNat 0
    (initialTranscript user_message conversation_history) [] none res
    (by simp) h
  refine ⟨?_, hp.1, hp.2⟩
  cases conversation_history <;> rfl

theorem claim_C9_witness :
    process_llm_with_tools envA "hi" "m" "sys" none 1 = Except.ok resA1 ∧
    (initialTranscript "hi" none =
       (none : Option (List Dict)).getD [] ++ [userItem "hi"] ∧
     (∃ t, resA1.conversation_history =
       initialTranscript "hi" none ++ t) ∧
     ∀ req ∈ resA1.requests,
       ∃ t, resA1.conversation_history = req.input ++ t) :=
  ⟨rfl, claim_C9_transcript_append_only envA "hi" "m" "sys" none 1 resA1 rfl⟩
